import Mathlib

/-!
Shallow embedding of the wallace_rs typed field decoder and message framer
(src/parser/mod.rs), together with proofs of the properties the
specification states about them.

Modelling conventions:
* payloads and streams are `List Nat` whose elements stand for `u8` bytes;
* the `u64` cursor arithmetic of the decoder is modelled with explicit
  wrap-around (`% 2^64`, release-profile semantics; the debug profile would
  panic at exactly the inputs where the modulus matters);
* fallible reads (`?` on `read_exact` and friends) are modelled with
  `Option`, `none` standing for the error path;
* `f32`/`f64` text rendering (Rust `Display`) is kept abstract as a
  deterministic function of the decoded little-endian bit value;
* the registry `HashMap` is modelled as an association list.
-/
namespace Wallace

/-! ## Data model (src/messages/registry.rs, src/parser/mod.rs) -/
/-- A field definition of a schema: a name and a type-code string
(`FieldDef` in src/messages/registry.rs; the Rust field is `r#type`). -/
structure FieldDef where
  name : String
  type : String
deriving Repr, DecidableEq

/-- A message definition: a human-readable name plus the ordered field list
(`MessageDef` in src/messages/registry.rs). -/
structure MessageDef where
  name : String
  fields : List FieldDef
deriving Repr, DecidableEq

/-- The schema registry, keyed by the textual form of the type ID
(`MessageRegistry = HashMap<String, MessageDef>`), modelled as an
association list queried with `List.lookup`. -/
abbrev MessageRegistry := List (String × MessageDef)

/-- One decoded message (`ParsedMessage` in src/parser/mod.rs). -/
structure ParsedMessage where
  log_type : Nat
  name : String
  fields : List (String × String)
deriving Repr, DecidableEq

/-- The two error constructors of `WallaceError` (src/errors.rs) reachable
from `extract_messages`: an I/O error and a field-parsing error. -/
inductive WallaceError where
  | io : String → WallaceError
  | parsingError : Nat → String → String → WallaceError
deriving Repr, DecidableEq

/-- The message of `std::io::ErrorKind::UnexpectedEof` produced by
`read_exact` on a short stream. -/
def eofMsg : String := "failed to fill whole buffer"

/-- Names whose fields are skip-only (src/parser/mod.rs line 105). -/
def isSkipName (n : String) : Bool :=
  n == "TRASH" || n == "PADDING" || n == "RESERVED"

/-- Little-endian decoding of a byte list into a natural number. -/
def leDecode : List Nat → Nat
  | [] => 0
  | b :: r => b + 256 * leDecode r

/-! ## Rust primitives used by the decoder -/
/-- `str::parse::<usize>` on a 64-bit target: an optional leading plus sign,
then one or more decimal digits, value below `2^64`; anything else is an
error (`None` after `.ok()`). -/
def parseUsize (cs : List Char) : Option Nat :=
  let body := match cs with
    | '+' :: r => r
    | _ => cs
  if body.isEmpty then none
  else
    match body.foldl
      (fun acc c =>
        match acc with
        | some a => if '0' ≤ c ∧ c ≤ '9' then some (a * 10 + (c.toNat - '0'.toNat)) else none
        | none => none)
      (some 0) with
    | some v => if v < 2 ^ 64 then some v else none
    | none => none

/-- `get_type_size` (src/parser/mod.rs lines 16-28): resolve a type-code
string to a byte width, `none` when unresolvable.  Rust's `s[..s.len()-1]`
is the char list without its final `'s'` (always a char boundary because
the string ends in the one-byte char `'s'`). -/
def get_type_size (s : String) : Option Nat :=
  if s == "Q" || s == "q" || s == "d" then some 8
  else if s == "I" || s == "i" || s == "f" then some 4
  else if s == "H" || s == "h" then some 2
  else if s == "B" || s == "b" then some 1
  else if s.data.all (fun c => c == 'c') then some s.data.length
  else if s.data.getLast? == some 's' then parseUsize s.data.dropLast
  else if s.data.all (fun c => c == 'B') then some s.data.length
  else if s.data.all (fun c => c == 'b') then some s.data.length
  else none

/-- Two's-complement reinterpretation of an unsigned `nbytes`-byte value, as
done by the signed `read_i*` calls. -/
def toSigned (nbytes : Nat) (u : Nat) : Int :=
  if u < 2 ^ (8 * nbytes - 1) then (u : Int) else (u : Int) - 2 ^ (8 * nbytes)

/-- `u64` wrapping addition: the release-profile semantics of the
`current_pos + size as u64` bounds checks in `parse_fields`. -/
def wadd64 (a b : Nat) : Nat := (a + b) % 2 ^ 64

/-- `io::Cursor::seek(SeekFrom::Current(size as i64))`: the `usize` width is
reinterpreted as a signed 64-bit offset and checked-added to the `u64`
position; a negative or overflowing result is an I/O error (`none`). -/
def seekCurrent (pos size : Nat) : Option Nat :=
  let off : Int := if size < 2 ^ 63 then (size : Int) else (size : Int) - 2 ^ 64
  let newPos : Int := (pos : Int) + off
  if 0 ≤ newPos ∧ newPos < 2 ^ 64 then some newPos.toNat else none

/-- `read_exact` into a buffer of `n` bytes from an `io::Cursor` at `pos`:
succeeds with exactly the next `n` bytes when they are available, errors
(`none`) otherwise.  (A buffer too large to allocate also aborts the Rust
program; both failure modes are `none` here.) -/
def readBytes (p : List Nat) (pos n : Nat) : Option (List Nat) :=
  if pos + n ≤ p.length then some ((p.drop pos).take n) else none

/-! ## Value rendering -/
/-- Uppercase hexadecimal digit. -/
def hexDigit (n : Nat) : Char :=
  if n < 10 then Char.ofNat ('0'.toNat + n) else Char.ofNat ('A'.toNat + n - 10)

/-- `format!("{:02X}", b)` for a byte. -/
def hexByte (b : Nat) : String :=
  String.mk [hexDigit (b / 16 % 16), hexDigit (b % 16)]

/-- Raw byte blocks render as space-separated two-digit uppercase hex. -/
def hexRender (bs : List Nat) : String :=
  String.intercalate " " (bs.map hexByte)

/-- The Unicode replacement character emitted by `from_utf8_lossy`. -/
def replChar : Char := Char.ofNat 0xFFFD

/-- `String::from_utf8_lossy`: UTF-8 decoding where an invalid sequence
contributes replacement characters. -/
def utf8LossyChars : List Nat → List Char
  | [] => []
  | b :: rest =>
    if b ≤ 0x7F then Char.ofNat b :: utf8LossyChars rest
    else if 0xC2 ≤ b ∧ b ≤ 0xDF then
      match rest with
      | [] => [replChar]
      | b1 :: r1 =>
        if 0x80 ≤ b1 ∧ b1 ≤ 0xBF then
          Char.ofNat ((b - 0xC0) * 0x40 + (b1 - 0x80)) :: utf8LossyChars r1
        else replChar :: utf8LossyChars (b1 :: r1)
    else if 0xE0 ≤ b ∧ b ≤ 0xEF then
      match rest with
      | [] => [replChar]
      | b1 :: r1 =>
        if (b = 0xE0 ∧ 0xA0 ≤ b1 ∧ b1 ≤ 0xBF) ∨
           (0xE1 ≤ b ∧ b ≤ 0xEC ∧ 0x80 ≤ b1 ∧ b1 ≤ 0xBF) ∨
           (b = 0xED ∧ 0x80 ≤ b1 ∧ b1 ≤ 0x9F) ∨
           (0xEE ≤ b ∧ 0x80 ≤ b1 ∧ b1 ≤ 0xBF) then
          match r1 with
          | [] => [replChar]
          | b2 :: r2 =>
            if 0x80 ≤ b2 ∧ b2 ≤ 0xBF then
              Char.ofNat ((b - 0xE0) * 0x1000 + (b1 - 0x80) * 0x40 + (b2 - 0x80)) ::
                utf8LossyChars r2
            else replChar :: utf8LossyChars (b2 :: r2)
        else replChar :: utf8LossyChars (b1 :: r1)
    else if 0xF0 ≤ b ∧ b ≤ 0xF4 then
      match rest with
      | [] => [replChar]
      | b1 :: r1 =>
        if (b = 0xF0 ∧ 0x90 ≤ b1 ∧ b1 ≤ 0xBF) ∨
           (0xF1 ≤ b ∧ b ≤ 0xF3 ∧ 0x80 ≤ b1 ∧ b1 ≤ 0xBF) ∨
           (b = 0xF4 ∧ 0x80 ≤ b1 ∧ b1 ≤ 0x8F) then
          match r1 with
          | [] => [replChar]
          | b2 :: r2 =>
            if 0x80 ≤ b2 ∧ b2 ≤ 0xBF then
              match r2 with
              | [] => [replChar]
              | b3 :: r3 =>
                if 0x80 ≤ b3 ∧ b3 ≤ 0xBF then
                  Char.ofNat ((b - 0xF0) * 0x40000 + (b1 - 0x80) * 0x1000 +
                      (b2 - 0x80) * 0x40 + (b3 - 0x80)) :: utf8LossyChars r3
                else replChar :: utf8LossyChars (b3 :: r3)
            else replChar :: utf8LossyChars (b2 :: r2)
        else replChar :: utf8LossyChars (b1 :: r1)
    else replChar :: utf8LossyChars rest

/-- `trim_end_matches('\0')` on the decoded characters. -/
def trimEndNul (cs : List Char) : List Char :=
  (cs.reverse.dropWhile (fun c => c == Char.ofNat 0)).reverse

/-- Text rendering of string-typed fields: lossy UTF-8 decoding followed by
trailing-NUL trimming. -/
def renderText (bs : List Nat) : String :=
  String.mk (trimEndNul (utf8LossyChars bs))

/-- Rendering of an `f32` read from 4 little-endian bytes.  Rust renders the
float through `Display`; decimal float formatting is outside this embedding,
so the rendering is kept abstract as a deterministic function of the 32-bit
value.  No claim depends on the text of a float value. -/
def renderF32 (bits : Nat) : String := "<f32:" ++ toString bits ++ ">"

/-- Rendering of an `f64` read from 8 little-endian bytes; see `renderF32`. -/
def renderF64 (bits : Nat) : String := "<f64:" ++ toString bits ++ ">"

/-! ## Warning texts (format strings of src/parser/mod.rs) -/
/-- Warning for a skip field whose width exceeds the remaining payload. -/
def skipOverrunMsg (name ty : String) (size plen cur : Nat) : String :=
  "Attempted to skip field \x27" ++ name ++ "\x27 (" ++ ty ++ ") of size " ++
    toString size ++ ", but it exceeds payload length " ++ toString plen ++
    ". Skipping remaining " ++ toString (plen - cur) ++ " bytes."

/-- Warning for a skip field whose width is unresolvable. -/
def skipUnknownMsg (name ty : String) : String :=
  "Cannot determine size for skippable field \x27" ++ name ++
    "\x27 with unknown type \x27" ++ ty ++ "\x27. Parsing may be incorrect."

/-- Warning for a non-skip field whose width exceeds the remaining payload. -/
def readOverrunMsg (name ty : String) (size plen : Nat) : String :=
  "Attempted to read field \x27" ++ name ++ "\x27 (" ++ ty ++ ") of size " ++
    toString size ++ ", but it exceeds payload length " ++ toString plen ++
    ". Stopping parse for this message."

/-- Warning for a non-skip field whose width is unresolvable. -/
def unknownTypeMsg (name ty : String) : String :=
  "Cannot determine size for field \x27" ++ name ++ "\x27 with unknown type \x27" ++
    ty ++ "\x27. Stopping parse for this message."

/-- Unreachable internal-error text of the explicit-length string arm. -/
def internalErrMsg (ty name : String) : String :=
  "Internal error: Could not get size for type \x27" ++ ty ++ "\x27 in field \x27" ++
    name ++ "\x27"

/-- Warning text of the fallback arm for an unsupported type. -/
def unsupportedMsg (ty name : String) : String :=
  "Unsupported type \x27" ++ ty ++ "\x27 encountered for field \x27" ++ name ++ "\x27"

/-- Diagnostic for unconsumed payload bytes after the schema is exhausted. -/
def notConsumedMsg (plen cur : Nat) : String :=
  "Payload not fully consumed. Expected length " ++ toString plen ++ ", read " ++
    toString cur ++ ". Remaining " ++ toString (plen - cur) ++ " bytes."

/-- The safeguard diagnostic for a cursor beyond the payload end. -/
def readPastMsg (plen cur : Nat) : String :=
  "Read past payload end. Expected length " ++ toString plen ++ ", read " ++
    toString cur ++ "."

/-! ## The field decoder (parse_fields, src/parser/mod.rs lines 91-245) -/

/-! ## The field decoder (`parse_fields`, src/parser/mod.rs lines 91-245) -/
/-- Decoder state: cursor position, decoded pairs, warnings, skip count. -/
structure PFState where
  cursor : Nat
  parsed : List (String × String)
  warnings : List String
  skipCount : Nat
deriving Repr, DecidableEq

/-- The big value `match` of `parse_fields` (lines 156-223): read and render
one field value at cursor `c`, returning the rendered value, the new cursor,
and any warnings the arm itself pushes.  `none` is the propagated I/O error
of a failed read. -/
def readFieldValue (p : List Nat) (c : Nat) (f : FieldDef) :
    Option (String × Nat × List String) :=
  if f.type == "Q" then
    (readBytes p c 8).map (fun bs => (toString (leDecode bs), c + 8, []))
  else if f.type == "q" then
    (readBytes p c 8).map (fun bs => (toString (toSigned 8 (leDecode bs)), c + 8, []))
  else if f.type == "I" then
    (readBytes p c 4).map (fun bs => (toString (leDecode bs), c + 4, []))
  else if f.type == "H" then
    (readBytes p c 2).map (fun bs => (toString (leDecode bs), c + 2, []))
  else if f.type == "B" then
    (readBytes p c 1).map (fun bs => (toString (leDecode bs), c + 1, []))
  else if f.type == "b" then
    (readBytes p c 1).map (fun bs => (toString (toSigned 1 (leDecode bs)), c + 1, []))
  else if f.type == "i" then
    (readBytes p c 4).map (fun bs => (toString (toSigned 4 (leDecode bs)), c + 4, []))
  else if f.type == "h" then
    (readBytes p c 2).map (fun bs => (toString (toSigned 2 (leDecode bs)), c + 2, []))
  else if f.type == "f" then
    (readBytes p c 4).map (fun bs => (renderF32 (leDecode bs), c + 4, []))
  else if f.type == "d" then
    (readBytes p c 8).map (fun bs => (renderF64 (leDecode bs), c + 8, []))
  else if f.type == "c" && f.name == "FILE_CONTENTS" then
    some (renderText (p.drop c), max c p.length, [])
  else if f.type.data.all (fun ch => ch == 'c') then
    (readBytes p c f.type.data.length).map
      (fun bs => (renderText bs, c + f.type.data.length, []))
  else if f.type.data.getLast? == some 's' then
    match get_type_size f.type with
    | some len => (readBytes p c len).map (fun bs => (renderText bs, c + len, []))
    | none => some ("[error]", c, [internalErrMsg f.type f.name])
  else if f.type.data.all (fun ch => ch == 'B') || f.type.data.all (fun ch => ch == 'b') then
    (readBytes p c f.type.data.length).map
      (fun bs => (hexRender bs, c + f.type.data.length, []))
  else
    some ("[unsupported]", c, [unsupportedMsg f.type f.name])

/-- The `for field in field_defs` loop of `parse_fields`.  The returned
`Bool` records whether the loop stopped early (`break`); `none` is a
propagated I/O error. -/
def parseFieldsLoop (p : List Nat) : List FieldDef → PFState → Option (PFState × Bool)
  | [], st => some (st, false)
  | f :: rest, st =>
    if isSkipName f.name then
      match get_type_size f.type with
      | some sizeToSkip =>
        if p.length < wadd64 st.cursor sizeToSkip then
          parseFieldsLoop p rest
            ⟨p.length, st.parsed,
              st.warnings ++ [skipOverrunMsg f.name f.type sizeToSkip p.length st.cursor],
              st.skipCount + 1⟩
        else
          match seekCurrent st.cursor sizeToSkip with
          | some newPos =>
            parseFieldsLoop p rest ⟨newPos, st.parsed, st.warnings, st.skipCount + 1⟩
          | none => none
      | none =>
        parseFieldsLoop p rest
          ⟨st.cursor, st.parsed, st.warnings ++ [skipUnknownMsg f.name f.type], st.skipCount⟩
    else
      match get_type_size f.type with
      | some size =>
        if p.length < wadd64 st.cursor size then
          some (⟨st.cursor, st.parsed,
            st.warnings ++ [readOverrunMsg f.name f.type size p.length], st.skipCount⟩, true)
        else
          match readFieldValue p st.cursor f with
          | some (val, newPos, ws) =>
            parseFieldsLoop p rest
              ⟨newPos, st.parsed ++ [(f.name, val)], st.warnings ++ ws, st.skipCount⟩
          | none => none
      | none =>
        if f.type == "c" && f.name == "FILE_CONTENTS" then
          match readFieldValue p st.cursor f with
          | some (val, newPos, ws) =>
            parseFieldsLoop p rest
              ⟨newPos, st.parsed ++ [(f.name, val)], st.warnings ++ ws, st.skipCount⟩
          | none => none
        else
          some (⟨st.cursor, st.parsed,
            st.warnings ++ [unknownTypeMsg f.name f.type], st.skipCount⟩, true)

/-- `parse_fields`: run the loop from the initial state and append the
final consumption diagnostics (lines 227-242).  `none` is the `Err` result. -/
def parse_fields (p : List Nat) (defs : List FieldDef) :
    Option (List (String × String) × List String × Nat) :=
  match parseFieldsLoop p defs ⟨0, [], [], 0⟩ with
  | none => none
  | some (st, _) =>
    let warnings :=
      if st.cursor < p.length then st.warnings ++ [notConsumedMsg p.length st.cursor]
      else if p.length < st.cursor then st.warnings ++ [readPastMsg p.length st.cursor]
      else st.warnings
    some (st.parsed, warnings, st.skipCount)

/-! ## The message framer (extract_messages, src/parser/mod.rs lines 30-89) -/

/-! ## The message framer (`extract_messages`, src/parser/mod.rs lines 30-89) -/
/-- `read_exact` of `n` bytes from the head of a sequential stream:
the bytes and the remaining stream, or `none` at end of stream. -/
def readExactS (s : List Nat) (n : Nat) : Option (List Nat × List Nat) :=
  if n ≤ s.length then some (s.take n, s.drop n) else none

/-- The message loop of `extract_messages`: read a type ID (end of stream
here ends the loop), a length, and a payload; look the type up in the
registry, decode known messages, silently drop unknown ones. -/
def extractLoop (reg : MessageRegistry) (s : List Nat) (msgs : List ParsedMessage)
    (warns : List String) (skips : Nat) :
    Except WallaceError (List ParsedMessage × List String × Nat) :=
  match h1 : readExactS s 2 with
  | none => Except.ok (msgs, warns, skips)
  | some (tb, s1) =>
    match h2 : readExactS s1 2 with
    | none => Except.error (WallaceError.io eofMsg)
    | some (lb, s2) =>
      match h3 : readExactS s2 (leDecode lb) with
      | none => Except.error (WallaceError.io eofMsg)
      | some (payload, s3) =>
        let logType := leDecode tb
        match List.lookup (toString logType) reg with
        | some d =>
          match parse_fields payload d.fields with
          | some (fields, fieldWarnings, skippedFields) =>
            extractLoop reg s3 (msgs ++ [⟨logType, d.name, fields⟩])
              (warns ++ fieldWarnings.map
                (fun w => "log_type " ++ toString logType ++ " (" ++ d.name ++ "): " ++ w))
              (skips + skippedFields)
          | none =>
            Except.error (WallaceError.parsingError logType d.name ("I/O Error: " ++ eofMsg))
        | none => extractLoop reg s3 msgs warns skips
termination_by s.length
decreasing_by
  all_goals
    unfold readExactS at h1 h2 h3
    split at h1 <;> cases h1
    split at h2 <;> cases h2
    split at h3 <;> cases h3
    simp only [List.length_drop]
    omega

/-- `extract_messages`: read the 4-byte header (any failure there is
propagated as an error), then run the message loop. -/
def extract_messages (s : List Nat) (reg : MessageRegistry) :
    Except WallaceError (List ParsedMessage × List String × Nat) :=
  match readExactS s 4 with
  | none => Except.error (WallaceError.io eofMsg)
  | some (_, s1) => extractLoop reg s1 [] [] 0

/-! ## Spec-side notions used by the claims -/

/-- Fields of fixed width: resolvable, and not the designated tail field. -/
def FixedWidth (f : FieldDef) : Prop :=
  (get_type_size f.type).isSome = true ∧ ¬(f.type = "c" ∧ f.name = "FILE_CONTENTS")

instance (f : FieldDef) : Decidable (FixedWidth f) := by
  unfold FixedWidth
  infer_instance

/-- The summed width of a schema (0 for unresolvable fields). -/
def schemaWidth : List FieldDef → Nat
  | [] => 0
  | f :: rest => (get_type_size f.type).getD 0 + schemaWidth rest

/-- The type-code grammar of spec section 4.1 with the `<N>s` row amended to
Rust `usize`-parse semantics: an optional leading plus sign, then decimal
digits whose value is below `2^64`, then `s`.  Laid out row by row as the
spec table is. -/
def specTypeWidth (s : String) : Option Nat :=
  if s = "Q" ∨ s = "q" then some 8
  else if s = "I" ∨ s = "i" then some 4
  else if s = "H" ∨ s = "h" then some 2
  else if s = "B" ∨ s = "b" then some 1
  else if s = "f" then some 4
  else if s = "d" then some 8
  else if s.data.all (fun ch => ch == 'c') then some s.data.length
  else if s.data.all (fun ch => ch == 'B') then some s.data.length
  else if s.data.all (fun ch => ch == 'b') then some s.data.length
  else if s.data.getLast? = some 's' then parseUsize s.data.dropLast
  else none

/-- Decimal value of a digit string (for the original grammar row). -/
def decDigitsVal (cs : List Char) : Nat :=
  cs.foldl (fun a ch => a * 10 + (ch.toNat - '0'.toNat)) 0

/-- The `<N>s` row exactly as the claim states it: one or more decimal
digits followed by `s`, resolving to the numeral's value; every string
matching no row is unresolvable. -/
def specTypeWidthOrig (s : String) : Option Nat :=
  if s = "Q" ∨ s = "q" then some 8
  else if s = "I" ∨ s = "i" then some 4
  else if s = "H" ∨ s = "h" then some 2
  else if s = "B" ∨ s = "b" then some 1
  else if s = "f" then some 4
  else if s = "d" then some 8
  else if s.data.all (fun ch => ch == 'c') then some s.data.length
  else if s.data.all (fun ch => ch == 'B') then some s.data.length
  else if s.data.all (fun ch => ch == 'b') then some s.data.length
  else if s.data.getLast? = some 's' ∧ s.data.dropLast ≠ [] ∧
      s.data.dropLast.all (fun ch => ch.isDigit) then
    some (decDigitsVal s.data.dropLast)
  else none

def helloReg : MessageRegistry := [("1", ⟨"HELLO", [⟨"A", "H"⟩, ⟨"B", "B"⟩]⟩)]

/-! ## Helper lemmas -/

/-! ## Properties of the value reader -/
theorem readBytes_pos {p : List Nat} {c n : Nat} (h : c + n ≤ p.length) :
    readBytes p c n = some ((p.drop c).take n) := by
  unfold readBytes
  rw [if_pos h]

/-! ## Loop invariants of the field decoder -/
theorem seekCurrent_small {c sz : Nat} (h : sz < 2 ^ 63) (h2 : c + sz < 2 ^ 64) :
    seekCurrent c sz = some (c + sz) := by
  unfold seekCurrent
  simp only
  rw [if_pos h, if_pos (by constructor <;> omega)]
  exact congrArg some (by omega)

theorem readExactS_two (a b : Nat) (l : List Nat) :
    readExactS (a :: b :: l) 2 = some ([a, b], l) := by
  unfold readExactS
  rw [if_pos (by simp)]
  rfl

theorem readExactS_short (s : List Nat) (n : Nat) (h : s.length < n) :
    readExactS s n = none := by
  unfold readExactS
  rw [if_neg (by omega)]

theorem readFieldValue_spec (p : List Nat) (c : Nat) (f : FieldDef) (size : Nat)
    (hgts : get_type_size f.type = some size) (hfit : c + size ≤ p.length)
    (hcl : c ≤ p.length) :
    ∃ val c2 ws, readFieldValue p c f = some (val, c2, ws) ∧ c2 ≤ p.length ∧
      ((f.type = "c" ∧ f.name = "FILE_CONTENTS") ∨ (c2 = c + size ∧ ws = [])) := by
  obtain ⟨fname, ftype⟩ := f
  simp only at hgts hfit ⊢
  by_cases hQ : ftype = "Q"
  · subst hQ
    have hsz : size = 8 := by simp [get_type_size] at hgts; omega
    subst hsz
    refine ⟨toString (leDecode ((p.drop c).take 8)), c + 8, [], ?_, by omega, .inr ⟨rfl, rfl⟩⟩
    simp [readFieldValue, readBytes_pos hfit]
  by_cases hq : ftype = "q"
  · subst hq
    have hsz : size = 8 := by simp [get_type_size] at hgts; omega
    subst hsz
    refine ⟨toString (toSigned 8 (leDecode ((p.drop c).take 8))), c + 8, [], ?_, by omega,
      .inr ⟨rfl, rfl⟩⟩
    simp [readFieldValue, readBytes_pos hfit]
  by_cases hI : ftype = "I"
  · subst hI
    have hsz : size = 4 := by simp [get_type_size] at hgts; omega
    subst hsz
    refine ⟨toString (leDecode ((p.drop c).take 4)), c + 4, [], ?_, by omega, .inr ⟨rfl, rfl⟩⟩
    simp [readFieldValue, readBytes_pos hfit]
  by_cases hH : ftype = "H"
  · subst hH
    have hsz : size = 2 := by simp [get_type_size] at hgts; omega
    subst hsz
    refine ⟨toString (leDecode ((p.drop c).take 2)), c + 2, [], ?_, by omega, .inr ⟨rfl, rfl⟩⟩
    simp [readFieldValue, readBytes_pos hfit]
  by_cases hB : ftype = "B"
  · subst hB
    have hsz : size = 1 := by simp [get_type_size] at hgts; omega
    subst hsz
    refine ⟨toString (leDecode ((p.drop c).take 1)), c + 1, [], ?_, by omega, .inr ⟨rfl, rfl⟩⟩
    simp [readFieldValue, readBytes_pos hfit]
  by_cases hb : ftype = "b"
  · subst hb
    have hsz : size = 1 := by simp [get_type_size] at hgts; omega
    subst hsz
    refine ⟨toString (toSigned 1 (leDecode ((p.drop c).take 1))), c + 1, [], ?_, by omega,
      .inr ⟨rfl, rfl⟩⟩
    simp [readFieldValue, readBytes_pos hfit]
  by_cases hi : ftype = "i"
  · subst hi
    have hsz : size = 4 := by simp [get_type_size] at hgts; omega
    subst hsz
    refine ⟨toString (toSigned 4 (leDecode ((p.drop c).take 4))), c + 4, [], ?_, by omega,
      .inr ⟨rfl, rfl⟩⟩
    simp [readFieldValue, readBytes_pos hfit]
  by_cases hh : ftype = "h"
  · subst hh
    have hsz : size = 2 := by simp [get_type_size] at hgts; omega
    subst hsz
    refine ⟨toString (toSigned 2 (leDecode ((p.drop c).take 2))), c + 2, [], ?_, by omega,
      .inr ⟨rfl, rfl⟩⟩
    simp [readFieldValue, readBytes_pos hfit]
  by_cases hf : ftype = "f"
  · subst hf
    have hsz : size = 4 := by simp [get_type_size] at hgts; omega
    subst hsz
    refine ⟨renderF32 (leDecode ((p.drop c).take 4)), c + 4, [], ?_, by omega, .inr ⟨rfl, rfl⟩⟩
    simp [readFieldValue, readBytes_pos hfit]
  by_cases hd : ftype = "d"
  · subst hd
    have hsz : size = 8 := by simp [get_type_size] at hgts; omega
    subst hsz
    refine ⟨renderF64 (leDecode ((p.drop c).take 8)), c + 8, [], ?_, by omega, .inr ⟨rfl, rfl⟩⟩
    simp [readFieldValue, readBytes_pos hfit]
  by_cases hFC : ftype = "c" ∧ fname = "FILE_CONTENTS"
  · obtain ⟨hft, hfn⟩ := hFC
    subst hft
    subst hfn
    refine ⟨renderText (p.drop c), max c p.length, [], ?_, by omega, .inl ⟨rfl, rfl⟩⟩
    simp [readFieldValue]
  by_cases hac : ftype.data.all (fun ch => ch == 'c') = true
  · have h1 : get_type_size ftype = some ftype.data.length := by
      simp [get_type_size, hQ, hq, hI, hH, hB, hb, hi, hh, hf, hd, hac]
    rw [h1] at hgts
    obtain rfl : ftype.data.length = size := Option.some.inj hgts
    refine ⟨renderText ((p.drop c).take ftype.data.length), c + ftype.data.length, [], ?_,
      by omega, .inr ⟨rfl, rfl⟩⟩
    simp only [readFieldValue, hQ, hq, hI, hH, hB, hb, hi, hh, hf, hd, hFC, hac]
    simp [hQ, hq, hI, hH, hB, hb, hi, hh, hf, hd, hFC]
    exact ⟨_, readBytes_pos hfit, rfl⟩
  by_cases hls : ftype.data.getLast? = some 's'
  · refine ⟨renderText ((p.drop c).take size), c + size, [], ?_, by omega, .inr ⟨rfl, rfl⟩⟩
    simp [readFieldValue, hQ, hq, hI, hH, hB, hb, hi, hh, hf, hd, hFC, hac, hls, hgts,
      readBytes_pos hfit]
  by_cases hab : (ftype.data.all (fun ch => ch == 'B') || ftype.data.all (fun ch => ch == 'b')) = true
  · have h1 : get_type_size ftype = some ftype.data.length := by
      rcases Bool.or_eq_true_iff.mp hab with hB1 | hb1
      · simp [get_type_size, hQ, hq, hI, hH, hB, hb, hi, hh, hf, hd, hac, hls, hB1]
      · simp [get_type_size, hQ, hq, hI, hH, hB, hb, hi, hh, hf, hd, hac, hls, hb1]
    rw [h1] at hgts
    obtain rfl : ftype.data.length = size := Option.some.inj hgts
    refine ⟨hexRender ((p.drop c).take ftype.data.length), c + ftype.data.length, [], ?_,
      by omega, .inr ⟨rfl, rfl⟩⟩
    simp only [readFieldValue]
    simp [hQ, hq, hI, hH, hB, hb, hi, hh, hf, hd, hFC, hac, hls, hab]
    exact ⟨_, readBytes_pos hfit, rfl⟩
  · exfalso
    have : get_type_size ftype = none := by
      simp only [Bool.or_eq_true] at hab
      push_neg at hab
      simp [get_type_size, hQ, hq, hI, hH, hB, hb, hi, hh, hf, hd, hac, hls, hab.1, hab.2]
    rw [this] at hgts
    cases hgts

theorem parseFieldsLoop_total (p : List Nat) (defs : List FieldDef) :
    ∀ (c : Nat) (pr : List (String × String)) (w : List String) (k : Nat),
      c ≤ p.length →
      (∀ f ∈ defs, ∀ sz, get_type_size f.type = some sz → p.length + sz < 2 ^ 64) →
      ∃ st stopped, parseFieldsLoop p defs ⟨c, pr, w, k⟩ = some (st, stopped) ∧
        st.cursor ≤ p.length := by
  induction defs with
  | nil =>
    intro c pr w k hc _
    exact ⟨_, _, rfl, hc⟩
  | cons f rest ih =>
    intro c pr w k hc hw
    have hwf := hw f (List.mem_cons_self ..)
    have hwr : ∀ g ∈ rest, ∀ sz, get_type_size g.type = some sz → p.length + sz < 2 ^ 64 :=
      fun g hg => hw g (List.mem_cons_of_mem _ hg)
    simp only [parseFieldsLoop]
    by_cases hskip : isSkipName f.name
    · rw [if_pos hskip]
      cases hgts : get_type_size f.type with
      | some sz =>
        dsimp only
        have hover := hwf sz hgts
        by_cases hole : p.length < wadd64 c sz
        · rw [if_pos hole]
          exact ih p.length pr _ _ le_rfl hwr
        · rw [if_neg hole]
          have hcz : wadd64 c sz = c + sz := Nat.mod_eq_of_lt (by omega)
          rw [hcz] at hole
          have hsk : seekCurrent c sz = some (c + sz) :=
            seekCurrent_small (by omega) (by omega)
          rw [hsk]
          exact ih (c + sz) pr w (k + 1) (by omega) hwr
      | none =>
        dsimp only
        exact ih c pr _ k hc hwr
    · rw [if_neg hskip]
      cases hgts : get_type_size f.type with
      | some sz =>
        dsimp only
        have hover := hwf sz hgts
        by_cases hole : p.length < wadd64 c sz
        · rw [if_pos hole]
          exact ⟨_, _, rfl, hc⟩
        · rw [if_neg hole]
          have hcz : wadd64 c sz = c + sz := Nat.mod_eq_of_lt (by omega)
          rw [hcz] at hole
          obtain ⟨val, c2, ws, hrfv, hc2, -⟩ :=
            readFieldValue_spec p c f sz hgts (by omega) hc
          rw [hrfv]
          exact ih c2 _ _ k hc2 hwr
      | none =>
        dsimp only
        by_cases hfc : (f.type == "c" && f.name == "FILE_CONTENTS") = true
        · exfalso
          have hft : f.type = "c" := by
            simpa using (Bool.and_eq_true_iff.mp hfc).1
          rw [hft] at hgts
          exact absurd hgts (by decide)
        · rw [if_neg hfc]
          exact ⟨_, _, rfl, hc⟩

theorem parseFieldsLoop_fixed (p : List Nat) (defs : List FieldDef) :
    ∀ (c : Nat) (pr : List (String × String)) (w : List String) (k : Nat),
      (∀ f ∈ defs, FixedWidth f) →
      c + schemaWidth defs ≤ p.length → p.length < 2 ^ 63 →
      ∃ pairs, parseFieldsLoop p defs ⟨c, pr, w, k⟩ =
          some (⟨c + schemaWidth defs, pr ++ pairs, w,
            k + defs.countP (fun g => isSkipName g.name)⟩, false) ∧
        pairs.map Prod.fst = (defs.filter (fun g => !isSkipName g.name)).map FieldDef.name := by
  induction defs with
  | nil =>
    intro c pr w k _ _ _
    refine ⟨[], ?_, rfl⟩
    simp [parseFieldsLoop, schemaWidth]
  | cons f rest ih =>
    intro c pr w k hfw hfit hlen
    obtain ⟨hsome, hnotfc⟩ := hfw f (List.mem_cons_self ..)
    obtain ⟨sz, hgts⟩ := Option.isSome_iff_exists.mp hsome
    have hwr : ∀ g ∈ rest, FixedWidth g := fun g hg => hfw g (List.mem_cons_of_mem _ hg)
    have hsw : schemaWidth (f :: rest) = sz + schemaWidth rest := by
      simp [schemaWidth, hgts]
    rw [hsw] at hfit ⊢
    have hwz : wadd64 c sz = c + sz := Nat.mod_eq_of_lt (by omega)
    have hnole : ¬ (p.length < wadd64 c sz) := by rw [hwz]; omega
    have hcnt : (f :: rest).countP (fun g => isSkipName g.name) =
        rest.countP (fun g => isSkipName g.name) + (if isSkipName f.name then 1 else 0) := by
      by_cases hskip : isSkipName f.name
      · simp [List.countP_cons, hskip]
      · simp [List.countP_cons, hskip]
    simp only [parseFieldsLoop, hgts]
    by_cases hskip : isSkipName f.name
    · rw [if_pos hskip, if_neg hnole, seekCurrent_small (by omega) (by omega)]
      dsimp only
      obtain ⟨pairs, hrec, hnames⟩ := ih (c + sz) pr w (k + 1) hwr (by omega) hlen
      refine ⟨pairs, ?_, ?_⟩
      · have e1 : c + (sz + schemaWidth rest) = c + sz + schemaWidth rest := by omega
        have e2 : k + (f :: rest).countP (fun g => isSkipName g.name)
            = k + 1 + rest.countP (fun g => isSkipName g.name) := by
          rw [hcnt]
          simp [hskip]
          omega
        rw [e1, e2]
        exact hrec
      · simpa [List.filter_cons, hskip] using hnames
    · rw [if_neg hskip, if_neg hnole]
      obtain ⟨val, c2, ws, hrfv, hc2, hor⟩ :=
        readFieldValue_spec p c f sz hgts (by omega) (by omega)
      rcases hor with hfc | ⟨rfl, rfl⟩
      · exact absurd hfc hnotfc
      rw [hrfv]
      dsimp only
      obtain ⟨pairs, hrec, hnames⟩ := ih (c + sz) (pr ++ [(f.name, val)]) (w ++ []) k hwr
        (by omega) hlen
      refine ⟨(f.name, val) :: pairs, ?_, ?_⟩
      · simp only [List.append_nil] at hrec ⊢
        simp only [List.append_assoc, List.singleton_append] at hrec
        have e1 : c + (sz + schemaWidth rest) = c + sz + schemaWidth rest := by omega
        have e2 : k + (f :: rest).countP (fun g => isSkipName g.name)
            = k + rest.countP (fun g => isSkipName g.name) := by
          rw [hcnt]
          simp [hskip]
        rw [e1, e2]
        exact hrec
      · simp only [List.map_cons, List.filter_cons, hskip]
        simpa using hnames

theorem parseFieldsLoop_names (p : List Nat) (defs : List FieldDef) :
    ∀ (c : Nat) (pr : List (String × String)) (w : List String) (k : Nat)
      (st : PFState) (stopped : Bool),
      parseFieldsLoop p defs ⟨c, pr, w, k⟩ = some (st, stopped) →
      ∃ n, n ≤ defs.length ∧
        st.parsed.map Prod.fst =
          pr.map Prod.fst ++
            ((defs.take n).filter (fun g => !isSkipName g.name)).map FieldDef.name := by
  induction defs with
  | nil =>
    intro c pr w k st stopped hrun
    simp only [parseFieldsLoop] at hrun
    cases hrun
    exact ⟨0, by omega, by simp⟩
  | cons f rest ih =>
    intro c pr w k st stopped hrun
    simp only [parseFieldsLoop] at hrun
    by_cases hskip : isSkipName f.name
    · rw [if_pos hskip] at hrun
      cases hgts : get_type_size f.type with
      | some sz =>
        rw [hgts] at hrun
        dsimp only at hrun
        by_cases hole : p.length < wadd64 c sz
        · rw [if_pos hole] at hrun
          obtain ⟨n, hn, hmap⟩ := ih _ _ _ _ _ _ hrun
          refine ⟨n + 1, by simp; omega, ?_⟩
          simpa [List.filter_cons, hskip] using hmap
        · rw [if_neg hole] at hrun
          cases hsk : seekCurrent c sz with
          | some np =>
            rw [hsk] at hrun
            dsimp only at hrun
            obtain ⟨n, hn, hmap⟩ := ih _ _ _ _ _ _ hrun
            refine ⟨n + 1, by simp; omega, ?_⟩
            simpa [List.filter_cons, hskip] using hmap
          | none =>
            rw [hsk] at hrun
            cases hrun
      | none =>
        rw [hgts] at hrun
        dsimp only at hrun
        obtain ⟨n, hn, hmap⟩ := ih _ _ _ _ _ _ hrun
        refine ⟨n + 1, by simp; omega, ?_⟩
        simpa [List.filter_cons, hskip] using hmap
    · rw [if_neg hskip] at hrun
      cases hgts : get_type_size f.type with
      | some sz =>
        rw [hgts] at hrun
        dsimp only at hrun
        by_cases hole : p.length < wadd64 c sz
        · rw [if_pos hole] at hrun
          cases hrun
          exact ⟨0, by omega, by simp⟩
        · rw [if_neg hole] at hrun
          cases hrfv : readFieldValue p c f with
          | some vcw =>
            obtain ⟨val, c2, ws⟩ := vcw
            rw [hrfv] at hrun
            dsimp only at hrun
            obtain ⟨n, hn, hmap⟩ := ih _ _ _ _ _ _ hrun
            refine ⟨n + 1, by simp; omega, ?_⟩
            simp only [List.take_succ_cons, List.filter_cons, hskip] at *
            simpa using hmap
          | none =>
            rw [hrfv] at hrun
            cases hrun
      | none =>
        rw [hgts] at hrun
        dsimp only at hrun
        by_cases hfc : (f.type == "c" && f.name == "FILE_CONTENTS") = true
        · rw [if_pos hfc] at hrun
          cases hrfv : readFieldValue p c f with
          | some vcw =>
            obtain ⟨val, c2, ws⟩ := vcw
            rw [hrfv] at hrun
            dsimp only at hrun
            obtain ⟨n, hn, hmap⟩ := ih _ _ _ _ _ _ hrun
            refine ⟨n + 1, by simp; omega, ?_⟩
            simp only [List.take_succ_cons, List.filter_cons, hskip] at *
            simpa using hmap
          | none =>
            rw [hrfv] at hrun
            cases hrun
        · rw [if_neg hfc] at hrun
          cases hrun
          exact ⟨0, by omega, by simp⟩

/-! ## Unfolding lemmas for the framer loop -/
theorem extractLoop_eos (reg : MessageRegistry) (s : List Nat) (m : List ParsedMessage)
    (w : List String) (k : Nat) (h : readExactS s 2 = none) :
    extractLoop reg s m w k = Except.ok (m, w, k) := by
  rw [extractLoop.eq_def]
  split
  · rfl
  · rename_i tb s1 heq
    exact Option.noConfusion (h.symm.trans heq)

theorem extractLoop_truncLen (reg : MessageRegistry) (s tb s1 : List Nat)
    (m : List ParsedMessage) (w : List String) (k : Nat)
    (h1 : readExactS s 2 = some (tb, s1)) (h2 : readExactS s1 2 = none) :
    extractLoop reg s m w k = Except.error (WallaceError.io eofMsg) := by
  rw [extractLoop.eq_def]
  split
  · rename_i heq
    exact Option.noConfusion (h1.symm.trans heq)
  · rename_i tb' s1' heq
    cases h1.symm.trans heq
    split
    · rfl
    · rename_i lb s2 heq2
      exact Option.noConfusion (h2.symm.trans heq2)

theorem extractLoop_truncPayload (reg : MessageRegistry) (s tb s1 lb s2 : List Nat)
    (m : List ParsedMessage) (w : List String) (k : Nat)
    (h1 : readExactS s 2 = some (tb, s1)) (h2 : readExactS s1 2 = some (lb, s2))
    (h3 : readExactS s2 (leDecode lb) = none) :
    extractLoop reg s m w k = Except.error (WallaceError.io eofMsg) := by
  rw [extractLoop.eq_def]
  split
  · rename_i heq
    exact Option.noConfusion (h1.symm.trans heq)
  · rename_i tb' s1' heq
    cases h1.symm.trans heq
    split
    · rename_i heq2
      exact Option.noConfusion (h2.symm.trans heq2)
    · rename_i lb' s2' heq2
      cases h2.symm.trans heq2
      split
      · rfl
      · rename_i payload s3 heq3
        exact Option.noConfusion (h3.symm.trans heq3)

theorem extractLoop_unknown (reg : MessageRegistry) (s tb s1 lb s2 payload s3 : List Nat)
    (m : List ParsedMessage) (w : List String) (k : Nat)
    (h1 : readExactS s 2 = some (tb, s1)) (h2 : readExactS s1 2 = some (lb, s2))
    (h3 : readExactS s2 (leDecode lb) = some (payload, s3))
    (hlk : List.lookup (toString (leDecode tb)) reg = none) :
    extractLoop reg s m w k = extractLoop reg s3 m w k := by
  rw [extractLoop.eq_def]
  split
  · rename_i heq
    exact Option.noConfusion (h1.symm.trans heq)
  · rename_i tb' s1' heq
    cases h1.symm.trans heq
    split
    · rename_i heq2
      exact Option.noConfusion (h2.symm.trans heq2)
    · rename_i lb' s2' heq2
      cases h2.symm.trans heq2
      split
      · rename_i heq3
        exact Option.noConfusion (h3.symm.trans heq3)
      · rename_i payload' s3' heq3
        cases h3.symm.trans heq3
        simp only [hlk]

theorem extractLoop_known (reg : MessageRegistry) (s tb s1 lb s2 payload s3 : List Nat)
    (m : List ParsedMessage) (w : List String) (k : Nat) (d : MessageDef)
    (fields : List (String × String)) (fws : List String) (sk : Nat)
    (h1 : readExactS s 2 = some (tb, s1)) (h2 : readExactS s1 2 = some (lb, s2))
    (h3 : readExactS s2 (leDecode lb) = some (payload, s3))
    (hlk : List.lookup (toString (leDecode tb)) reg = some d)
    (hpf : parse_fields payload d.fields = some (fields, fws, sk)) :
    extractLoop reg s m w k =
      extractLoop reg s3 (m ++ [⟨leDecode tb, d.name, fields⟩])
        (w ++ fws.map (fun fw =>
          "log_type " ++ toString (leDecode tb) ++ " (" ++ d.name ++ "): " ++ fw))
        (k + sk) := by
  rw [extractLoop.eq_def]
  split
  · rename_i heq
    exact Option.noConfusion (h1.symm.trans heq)
  · rename_i tb' s1' heq
    cases h1.symm.trans heq
    split
    · rename_i heq2
      exact Option.noConfusion (h2.symm.trans heq2)
    · rename_i lb' s2' heq2
      cases h2.symm.trans heq2
      split
      · rename_i heq3
        exact Option.noConfusion (h3.symm.trans heq3)
      · rename_i payload' s3' heq3
        cases h3.symm.trans heq3
        simp only [hlk, hpf]

/-! ## The claims -/

/-- C1: (1) every decoded message's pair list is exactly one pair per
non-skip field of a prefix of the schema (the fields processed before any
early termination), in schema order; (2) for a schema of only fixed-width
fields (resolvable, not the variable tail field) and a payload of exactly
the summed width (a real Rust slice, length below `2^63`), decoding
returns zero warnings and one value per non-skip field, in schema order. -/
theorem C1_emission_invariant :
    (∀ (p : List Nat) (defs : List FieldDef) out,
        parse_fields p defs = some out →
        ∃ n, n ≤ defs.length ∧
          out.1.map Prod.fst =
            ((defs.take n).filter (fun g => !isSkipName g.name)).map FieldDef.name) ∧
    (∀ (p : List Nat) (defs : List FieldDef),
        (∀ f ∈ defs, FixedWidth f) → p.length = schemaWidth defs → p.length < 2 ^ 63 →
        ∃ pairs skips, parse_fields p defs = some (pairs, [], skips) ∧
          pairs.map Prod.fst = (defs.filter (fun g => !isSkipName g.name)).map FieldDef.name) := by
  constructor
  · intro p defs out hout
    unfold parse_fields at hout
    cases hrun : parseFieldsLoop p defs ⟨0, [], [], 0⟩ with
    | none =>
      rw [hrun] at hout
      cases hout
    | some stp =>
      obtain ⟨st, stopped⟩ := stp
      rw [hrun] at hout
      dsimp only at hout
      cases hout
      obtain ⟨n, hn, hmap⟩ := parseFieldsLoop_names p defs 0 [] [] 0 st stopped hrun
      exact ⟨n, hn, by simpa using hmap⟩
  · intro p defs hfw hlen hbound
    obtain ⟨pairs, hrun, hmap⟩ := parseFieldsLoop_fixed p defs 0 [] [] 0 hfw (by omega) hbound
    refine ⟨pairs, defs.countP (fun g => isSkipName g.name), ?_, by simpa using hmap⟩
    unfold parse_fields
    rw [hrun]
    dsimp only
    rw [if_neg (by omega), if_neg (by omega)]
    simp

theorem C1_witness : ∃ pairs skips,
    parse_fields [42, 0, 5] [⟨"A", "H"⟩, ⟨"B", "B"⟩] = some (pairs, [], skips) ∧
      pairs.map Prod.fst =
        ([⟨"A", "H"⟩, ⟨"B", "B"⟩].filter (fun g => !isSkipName g.name)).map FieldDef.name :=
  C1_emission_invariant.2 [42, 0, 5] [⟨"A", "H"⟩, ⟨"B", "B"⟩] (by decide) (by decide) (by decide)

/-- C2 (amended): for every payload and field list whose resolvable widths
cannot overflow the 64-bit bounds check (payload length plus any resolved
width below `2^64`), `parse_fields` returns `Ok`, the cursor never exceeds
the payload length, and the "Read past payload end" safeguard never fires
(the final diagnostics are exactly the loop warnings plus, when bytes
remain, the single "not fully consumed" warning). -/
theorem C2_parse_fields_total (p : List Nat) (defs : List FieldDef)
    (hw : ∀ f ∈ defs, p.length + (get_type_size f.type).getD 0 < 2 ^ 64) :
    ∃ st stopped, parseFieldsLoop p defs ⟨0, [], [], 0⟩ = some (st, stopped) ∧
      st.cursor ≤ p.length ∧
      parse_fields p defs = some (st.parsed,
        st.warnings ++
          (if st.cursor < p.length then [notConsumedMsg p.length st.cursor] else []),
        st.skipCount) := by
  have hw' : ∀ f ∈ defs, ∀ sz, get_type_size f.type = some sz → p.length + sz < 2 ^ 64 := by
    intro f hf sz hsz
    have := hw f hf
    rw [hsz] at this
    simpa using this
  obtain ⟨st, stopped, hrun, hc⟩ := parseFieldsLoop_total p defs 0 [] [] 0 (Nat.zero_le _) hw'
  refine ⟨st, stopped, hrun, hc, ?_⟩
  unfold parse_fields
  rw [hrun]
  dsimp only
  by_cases hlt : st.cursor < p.length
  · rw [if_pos hlt, if_pos hlt]
  · rw [if_neg hlt, if_neg (by omega), if_neg hlt]
    simp

theorem C2_witness : ∃ st stopped,
    parseFieldsLoop [42, 0] [⟨"A", "H"⟩] ⟨0, [], [], 0⟩ = some (st, stopped) ∧
      st.cursor ≤ 2 ∧
      parse_fields [42, 0] [⟨"A", "H"⟩] = some (st.parsed,
        st.warnings ++ (if st.cursor < 2 then [notConsumedMsg 2 st.cursor] else []),
        st.skipCount) :=
  C2_parse_fields_total [42, 0] [⟨"A", "H"⟩] (by decide)

/-- C2 counterexample: at a 3-byte payload with a skip field of width 3
followed by a field whose declared width is `2^64 - 3`, the wrapped bounds
check passes and the subsequent read fails, so `parse_fields` does not
return `Ok` (debug builds panic at the same input). -/
theorem C2_counterexample :
    parse_fields [0, 0, 0] [⟨"PADDING", "3s"⟩, ⟨"Y", "18446744073709551613s"⟩] = none := by
  decide

/-- C3 (amended): a non-skip field whose type is unresolvable, or whose
resolved width overruns the payload without wrapping the 64-bit bounds
check, stops decoding with exactly one appended warning, leaving the
cursor, decoded pairs and skip count unchanged. -/
theorem C3_early_stop (p : List Nat) (c : Nat) (pr : List (String × String))
    (w : List String) (k : Nat) (f : FieldDef) (rest : List FieldDef)
    (hns : isSkipName f.name = false)
    (hbad : get_type_size f.type = none ∨
      ∃ sz, get_type_size f.type = some sz ∧ p.length < c + sz ∧ c + sz < 2 ^ 64) :
    ∃ msg, parseFieldsLoop p (f :: rest) ⟨c, pr, w, k⟩ = some (⟨c, pr, w ++ [msg], k⟩, true) := by
  have hns' : ¬ (isSkipName f.name = true) := by simp [hns]
  rcases hbad with hnone | ⟨sz, hgts, hover, hnw⟩
  · simp only [parseFieldsLoop, hnone]
    rw [if_neg hns']
    have hft : ¬ ((f.type == "c" && f.name == "FILE_CONTENTS") = true) := by
      intro hcontr
      have hc' : f.type = "c" := by simpa using (Bool.and_eq_true_iff.mp hcontr).1
      rw [hc'] at hnone
      exact absurd hnone (by decide)
    rw [if_neg hft]
    exact ⟨_, rfl⟩
  · simp only [parseFieldsLoop, hgts]
    rw [if_neg hns']
    rw [if_pos (by unfold wadd64; rw [Nat.mod_eq_of_lt hnw]; omega)]
    exact ⟨_, rfl⟩

theorem C3_witness : ∃ msg,
    parseFieldsLoop [] [⟨"X", "z"⟩] ⟨0, [("A", "1")], [], 0⟩ =
      some (⟨0, [("A", "1")], [] ++ [msg], 0⟩, true) :=
  C3_early_stop [] 0 [("A", "1")] [] 0 ⟨"X", "z"⟩ [] (by decide) (Or.inl (by decide))

/-- C3 counterexample: with the claim read as stated (any overrun stops
with a warning and returns the pairs decoded so far), a field of declared
width `2^64 - 5` at cursor 5 overruns a 5-byte payload, yet the wrapped
bounds check passes and the decode ends in an error instead of a warning. -/
theorem C3_counterexample :
    parse_fields [0, 0, 0, 0, 0] [⟨"TRASH", "5s"⟩, ⟨"X", "18446744073709551611s"⟩] = none := by
  decide

/-- C4 (amended): skip-only fields never emit a pair; a resolved width that
fits (payload a real Rust slice, length below `2^63`) advances the cursor by
exactly that width and increments the skip count; an overrunning width whose
bounds check does not wrap clamps the cursor to the payload end with one
warning; an unresolvable width warns and leaves the cursor unchanged. -/
theorem C4_skip_fields :
    (∀ (p : List Nat) (c : Nat) (pr : List (String × String)) (w : List String) (k : Nat)
        (f : FieldDef) (rest : List FieldDef) (sz : Nat),
        isSkipName f.name = true → get_type_size f.type = some sz →
        c + sz ≤ p.length → p.length < 2 ^ 63 →
        parseFieldsLoop p (f :: rest) ⟨c, pr, w, k⟩ =
          parseFieldsLoop p rest ⟨c + sz, pr, w, k + 1⟩) ∧
    (∀ (p : List Nat) (c : Nat) (pr : List (String × String)) (w : List String) (k : Nat)
        (f : FieldDef) (rest : List FieldDef) (sz : Nat),
        isSkipName f.name = true → get_type_size f.type = some sz →
        p.length < c + sz → c + sz < 2 ^ 64 →
        parseFieldsLoop p (f :: rest) ⟨c, pr, w, k⟩ =
          parseFieldsLoop p rest
            ⟨p.length, pr, w ++ [skipOverrunMsg f.name f.type sz p.length c], k + 1⟩) ∧
    (∀ (p : List Nat) (c : Nat) (pr : List (String × String)) (w : List String) (k : Nat)
        (f : FieldDef) (rest : List FieldDef),
        isSkipName f.name = true → get_type_size f.type = none →
        parseFieldsLoop p (f :: rest) ⟨c, pr, w, k⟩ =
          parseFieldsLoop p rest ⟨c, pr, w ++ [skipUnknownMsg f.name f.type], k⟩) ∧
    (∀ (p : List Nat) (defs : List FieldDef) out,
        parse_fields p defs = some out → ∀ pa ∈ out.1, isSkipName pa.1 = false) := by
  refine ⟨?_, ?_, ?_, ?_⟩
  · intro p c pr w k f rest sz hsk hgts hfit hbound
    simp only [parseFieldsLoop, hgts]
    rw [if_pos hsk]
    rw [if_neg (by unfold wadd64; rw [Nat.mod_eq_of_lt (by omega)]; omega)]
    rw [seekCurrent_small (by omega) (by omega)]
  · intro p c pr w k f rest sz hsk hgts hover hnw
    simp only [parseFieldsLoop, hgts]
    rw [if_pos hsk]
    rw [if_pos (by unfold wadd64; rw [Nat.mod_eq_of_lt hnw]; omega)]
  · intro p c pr w k f rest hsk hgts
    simp only [parseFieldsLoop, hgts]
    rw [if_pos hsk]
  · intro p defs out hout pa hpa
    unfold parse_fields at hout
    cases hrun : parseFieldsLoop p defs ⟨0, [], [], 0⟩ with
    | none =>
      rw [hrun] at hout
      cases hout
    | some stp =>
      obtain ⟨st, stopped⟩ := stp
      rw [hrun] at hout
      dsimp only at hout
      cases hout
      obtain ⟨n, hn, hmap⟩ := parseFieldsLoop_names p defs 0 [] [] 0 st stopped hrun
      have hmem : pa.1 ∈ st.parsed.map Prod.fst := List.mem_map_of_mem _ hpa
      rw [hmap] at hmem
      simp only [List.map_nil, List.nil_append, List.mem_map] at hmem
      obtain ⟨g, hg, hgname⟩ := hmem
      have := (List.mem_filter.mp hg).2
      rw [← hgname]
      simpa using this

theorem C4_witness :
    parseFieldsLoop [0] [⟨"TRASH", "H"⟩] ⟨0, [], [], 0⟩ =
      parseFieldsLoop [0] [] ⟨1, [], [] ++ [skipOverrunMsg "TRASH" "H" 2 1 0], 0 + 1⟩ :=
  C4_skip_fields.2.1 [0] 0 [] [] 0 ⟨"TRASH", "H"⟩ [] 2 (by decide) (by decide)
    (by decide) (by decide)

/-- C4 counterexample: a skip field of declared width `2^64 - 5` at cursor 5
of a 5-byte payload overruns, but instead of a clamped cursor and a warning,
the wrapped bounds check passes and the cursor seeks backwards to 0 with no
warning at all. -/
theorem C4_counterexample :
    parseFieldsLoop [0, 0, 0, 0, 0] [⟨"TRASH", "18446744073709551611s"⟩] ⟨5, [], [], 1⟩ =
      some (⟨0, [], [], 2⟩, false) := by
  decide

/-- C5 (amended): the framer ends the run successfully whenever fewer than
two bytes remain at the type-ID read (zero or one - end-of-stream anywhere
inside the type ID terminates cleanly), while a length read or a payload
read that cannot be fully satisfied is a fatal I/O error. -/
theorem C5_framer_termination :
    (∀ (reg : MessageRegistry) (s : List Nat) (m : List ParsedMessage)
        (w : List String) (k : Nat), s.length < 2 →
        extractLoop reg s m w k = Except.ok (m, w, k)) ∧
    (∀ (reg : MessageRegistry) (t0 t1 : Nat) (s : List Nat) (m : List ParsedMessage)
        (w : List String) (k : Nat), s.length < 2 →
        extractLoop reg (t0 :: t1 :: s) m w k = Except.error (WallaceError.io eofMsg)) ∧
    (∀ (reg : MessageRegistry) (t0 t1 l0 l1 : Nat) (s : List Nat) (m : List ParsedMessage)
        (w : List String) (k : Nat), s.length < leDecode [l0, l1] →
        extractLoop reg (t0 :: t1 :: l0 :: l1 :: s) m w k =
          Except.error (WallaceError.io eofMsg)) := by
  refine ⟨?_, ?_, ?_⟩
  · intro reg s m w k hs
    exact extractLoop_eos reg s m w k (readExactS_short s 2 hs)
  · intro reg t0 t1 s m w k hs
    exact extractLoop_truncLen reg _ [t0, t1] s m w k (readExactS_two ..)
      (readExactS_short s 2 hs)
  · intro reg t0 t1 l0 l1 s m w k hs
    exact extractLoop_truncPayload reg _ [t0, t1] (l0 :: l1 :: s) [l0, l1] s m w k
      (readExactS_two ..) (readExactS_two ..) (readExactS_short s _ hs)

theorem C5_witness :
    extractLoop [] [1, 0, 2, 0, 9] [] [] 0 = Except.error (WallaceError.io eofMsg) :=
  C5_framer_termination.2.2 [] 1 0 2 0 [9] [] [] 0 (by decide)

/-- C5 counterexample: a stream whose single trailing byte is a truncated
type ID (end-of-stream one byte INTO the type-ID field, not at its
boundary) still terminates the run successfully instead of fatally. -/
theorem C5_counterexample : extract_messages [0, 0, 0, 0, 7] [] = Except.ok ([], [], 0) := by
  unfold extract_messages
  simp only [show readExactS [0, 0, 0, 0, 7] 4 = some ([0, 0, 0, 0], [7]) from by decide]
  exact extractLoop_eos [] [7] [] [] 0 (by decide)

/-- C6: a framed message whose type ID is absent from the registry
contributes no decoded message and no diagnostic, and the framer continues
with the rest of the stream unchanged. -/
theorem C6_unknown_type_silent (reg : MessageRegistry) (t len : Nat)
    (payload rest : List Nat) (m : List ParsedMessage) (w : List String) (k : Nat)
    (ht : t < 2 ^ 16) (hlen : payload.length = len) (hl : len < 2 ^ 16)
    (hreg : List.lookup (toString t) reg = none) :
    extractLoop reg ([t % 256, t / 256] ++ [len % 256, len / 256] ++ payload ++ rest) m w k =
      extractLoop reg rest m w k := by
  have hdect : leDecode [t % 256, t / 256] = t := by
    simp [leDecode]
    omega
  have hdecl : leDecode [len % 256, len / 256] = len := by
    simp [leDecode]
    omega
  have h3 : readExactS (payload ++ rest) (leDecode [len % 256, len / 256]) =
      some (payload, rest) := by
    rw [hdecl, ← hlen]
    unfold readExactS
    rw [if_pos (by simp)]
    rw [List.take_left, List.drop_left]
  refine Eq.trans (extractLoop_unknown reg _ [t % 256, t / 256]
    ([len % 256, len / 256] ++ payload ++ rest) [len % 256, len / 256] (payload ++ rest)
    payload rest m w k (readExactS_two ..) (readExactS_two ..) h3 ?_) rfl
  rw [hdect]
  exact hreg

theorem C6_witness :
    extractLoop helloReg ([2 % 256, 2 / 256] ++ [1 % 256, 1 / 256] ++ [9] ++ []) [] [] 0 =
      extractLoop helloReg [] [] [] 0 :=
  C6_unknown_type_silent helloReg 2 1 [9] [] [] [] 0 (by decide) (by decide) (by decide)
    (by decide)

/-- C7 (amended): the resolver realises exactly the spec grammar with the
`<N>s` row read as Rust `usize` parsing (optional `+`, value below `2^64`). -/
theorem C7_resolver_grammar : ∀ s : String, get_type_size s = specTypeWidth s := by
  intro s
  by_cases hQ : s = "Q"
  · subst hQ
    decide
  by_cases hq : s = "q"
  · subst hq
    decide
  by_cases hd : s = "d"
  · subst hd
    decide
  by_cases hI : s = "I"
  · subst hI
    decide
  by_cases hi : s = "i"
  · subst hi
    decide
  by_cases hf : s = "f"
  · subst hf
    decide
  by_cases hH : s = "H"
  · subst hH
    decide
  by_cases hh : s = "h"
  · subst hh
    decide
  by_cases hB : s = "B"
  · subst hB
    decide
  by_cases hb : s = "b"
  · subst hb
    decide
  by_cases hac : s.data.all (fun ch => ch == 'c') = true
  · simp [get_type_size, specTypeWidth, hQ, hq, hd, hI, hi, hf, hH, hh, hB, hb, hac]
  by_cases hls : s.data.getLast? = some 's'
  · have hsmem : 's' ∈ s.data := by
      obtain ⟨hne, heq⟩ :=
        List.mem_getLast?_eq_getLast (l := s.data) (x := 's') (by rw [hls]; rfl)
      rw [heq]
      exact List.getLast_mem hne
    have hBf : s.data.all (fun ch => ch == 'B') = false := by
      by_contra hcc
      rw [Bool.not_eq_false] at hcc
      have := List.all_eq_true.mp hcc _ hsmem
      simp at this
    have hbf : s.data.all (fun ch => ch == 'b') = false := by
      by_contra hcc
      rw [Bool.not_eq_false] at hcc
      have := List.all_eq_true.mp hcc _ hsmem
      simp at this
    simp [get_type_size, specTypeWidth, hQ, hq, hd, hI, hi, hf, hH, hh, hB, hb, hac,
      hls, hBf, hbf]
  · simp [get_type_size, specTypeWidth, hQ, hq, hd, hI, hi, hf, hH, hh, hB, hb, hac, hls]

/-- C7 counterexample: `+5s` matches no row of the grammar as the claim
states it (so it should be unresolvable), yet the resolver accepts it with
width 5 because Rust `usize` parsing allows a leading plus sign. -/
theorem C7_counterexample :
    get_type_size "+5s" = some 5 ∧ specTypeWidthOrig "+5s" = none := by
  decide

set_option maxRecDepth 4000 in
/-- C8 (amended): the `FILE_CONTENTS` tail field of type `c` reads all
remaining payload bytes (NUL-trimmed lossy text) and emits exactly one pair
whenever at least one byte remains before it; with zero bytes remaining its
width-1 bounds check fires instead: one warning, no pair, decoding stops. -/
theorem C8_file_contents :
    (∀ (p : List Nat) (c : Nat) (pr : List (String × String)) (w : List String) (k : Nat)
        (rest : List FieldDef),
        c < p.length → p.length < 2 ^ 63 →
        parseFieldsLoop p (⟨"FILE_CONTENTS", "c"⟩ :: rest) ⟨c, pr, w, k⟩ =
          parseFieldsLoop p rest
            ⟨p.length, pr ++ [("FILE_CONTENTS", renderText (p.drop c))], w, k⟩) ∧
    (∀ (p : List Nat) (pr : List (String × String)) (w : List String) (k : Nat)
        (rest : List FieldDef),
        p.length < 2 ^ 63 →
        parseFieldsLoop p (⟨"FILE_CONTENTS", "c"⟩ :: rest) ⟨p.length, pr, w, k⟩ =
          some (⟨p.length, pr, w ++ [readOverrunMsg "FILE_CONTENTS" "c" 1 p.length], k⟩, true)) := by
  have h1 : get_type_size (FieldDef.mk "FILE_CONTENTS" "c").type = some 1 := by decide
  have h2 : ¬ (isSkipName (FieldDef.mk "FILE_CONTENTS" "c").name = true) := by decide
  constructor
  · intro p c pr w k rest hc hbound
    have hrfv : readFieldValue p c ⟨"FILE_CONTENTS", "c"⟩ =
        some (renderText (p.drop c), max c p.length, []) := rfl
    rw [parseFieldsLoop]
    rw [if_neg h2, h1]
    dsimp only
    rw [if_neg (by unfold wadd64; rw [Nat.mod_eq_of_lt (by omega)]; omega)]
    rw [hrfv]
    dsimp only
    rw [Nat.max_eq_right (le_of_lt hc)]
    simp only [List.append_nil]
  · intro p pr w k rest hbound
    rw [parseFieldsLoop]
    rw [if_neg h2, h1]
    dsimp only
    rw [if_pos (by unfold wadd64; rw [Nat.mod_eq_of_lt (by omega)]; omega)]

theorem C8_witness :
    parseFieldsLoop [104, 0] [⟨"FILE_CONTENTS", "c"⟩] ⟨0, [], [], 0⟩ =
      parseFieldsLoop [104, 0] []
        ⟨2, [] ++ [("FILE_CONTENTS", renderText ([104, 0].drop 0))], [], 0⟩ :=
  C8_file_contents.1 [104, 0] 0 [] [] 0 [] (by decide) (by decide)

/-- C8 counterexample: with an empty payload (zero bytes remaining) the
`FILE_CONTENTS` field emits no pair at all - the decoder stops with an
overrun warning, contradicting "including when zero bytes remain". -/
theorem C8_counterexample :
    parse_fields [] [⟨"FILE_CONTENTS", "c"⟩] =
      some ([], [readOverrunMsg "FILE_CONTENTS" "c" 1 0], 0) := by
  decide

/-- C9: a fixed-width schema against a longer payload decodes every field
and records exactly one "not fully consumed" warning naming the remaining
byte count. -/
theorem C9_trailing_bytes (p : List Nat) (defs : List FieldDef)
    (hfw : ∀ f ∈ defs, FixedWidth f) (hlt : schemaWidth defs < p.length)
    (hbound : p.length < 2 ^ 63) :
    ∃ pairs skips, parse_fields p defs =
        some (pairs, [notConsumedMsg p.length (schemaWidth defs)], skips) ∧
      pairs.map Prod.fst = (defs.filter (fun g => !isSkipName g.name)).map FieldDef.name := by
  obtain ⟨pairs, hrun, hmap⟩ := parseFieldsLoop_fixed p defs 0 [] [] 0 hfw (by omega) hbound
  refine ⟨pairs, defs.countP (fun g => isSkipName g.name), ?_, by simpa using hmap⟩
  unfold parse_fields
  rw [hrun]
  dsimp only
  rw [if_pos (by omega)]
  simp

theorem C9_witness : ∃ pairs skips,
    parse_fields [7, 8] [⟨"A", "B"⟩] = some (pairs, [notConsumedMsg 2 1], skips) ∧
      pairs.map Prod.fst =
        ([⟨"A", "B"⟩].filter (fun g => !isSkipName g.name)).map FieldDef.name :=
  C9_trailing_bytes [7, 8] [⟨"A", "B"⟩] (by decide) (by decide) (by decide)

/-- C10: end-to-end example - one HELLO message with fields A (u16) and
B (u8), stream of header, type `0x0001`, length 3, payload
`[0x2A, 0x00, 0x05]`, decoding to `[("A","42"), ("B","5")]` with zero
warnings and zero skipped fields. -/
theorem C10_end_to_end :
    extract_messages [0, 0, 0, 0, 1, 0, 3, 0, 42, 0, 5] helloReg =
      Except.ok ([⟨1, "HELLO", [("A", "42"), ("B", "5")]⟩], [], 0) := by
  unfold extract_messages
  simp only [show readExactS [0, 0, 0, 0, 1, 0, 3, 0, 42, 0, 5] 4 =
    some ([0, 0, 0, 0], [1, 0, 3, 0, 42, 0, 5]) from by decide]
  rw [extractLoop_known helloReg _ [1, 0] [3, 0, 42, 0, 5] [3, 0] [42, 0, 5] [42, 0, 5] []
    [] [] 0 ⟨"HELLO", [⟨"A", "H"⟩, ⟨"B", "B"⟩]⟩ [("A", "42"), ("B", "5")] [] 0
    (by decide) (by decide) (by decide) (by decide) (by decide)]
  rw [extractLoop_eos _ _ _ _ _ (by decide)]
  rfl

end Wallace
